import Mathlib

/-!
ahlib-db: logging adapters for gorm and redigo, and bulk redis helpers.

A shallow embedding of `xredis/helper.go`, `xredis/logger.go` and
`xgorm/logger.go`.

* Go's dynamically typed values (`interface{}`) are the inductive `GoValue`.
* A Go `error` is `Option GoError` (`none` is the nil error).
* A `redis.Conn` is reduced to its `Do` method, a transition on an explicit
  connection state; `Conn.traced` records every call made through it.
* A Go panic (index out of range, failed type assertion, nil dereference) is
  the result `none` of a function returning `Option`.
* The `fmt` package is an interface (`Fmt`) the definitions are parametric
  in; `refFmt` is a reference formatter for a fragment of its verbs.
-/

namespace AhlibDb

/-! ## Values -/

/-- A non-nil Go `error`, identified by its message. -/
structure GoError where
  msg : String
deriving DecidableEq, Repr

/-- Dynamically typed Go values, as far as this package tells them apart.
Go strings and byte slices are represented by their text. -/
inductive GoValue where
  /-- the nil interface value -/
  | nil
  /-- a `string` -/
  | str (s : String)
  /-- an `int` -/
  | int (n : Int)
  /-- an `int64` -/
  | int64 (n : Int)
  /-- a `[]byte` (`[]uint8`), possibly empty -/
  | bytes (b : String)
  /-- a `[]interface{}` with its elements -/
  | ifaces (xs : List GoValue)
  /-- a slice of any other type: the name of the slice type, the name of its
  element type, and the elements as `Index(i).Interface()` returns them -/
  | slice (tname : String) (elem : String) (xs : List GoValue)
  /-- a `time.Time`, represented by what `Format(time.RFC3339)` returns -/
  | time (rfc3339 : String)
  /-- a value of a type implementing `driver.Valuer`, with the pair its
  `Value()` method returns -/
  | valuer (tname : String) (value : GoValue) (err : Option GoError)
  /-- a pointer: the name of the pointer type and the pointee (`none` for a
  nil pointer) -/
  | ptr (tname : String) (target : Option GoValue)
  /-- a `redis.Error` reply -/
  | error (e : GoError)
  /-- a value of any other type whose kind is not slice or pointer: the name
  of its type and an identifying text -/
  | other (tname : String) (text : String)

/-- The `String()` of `reflect.TypeOf(v)`; `none` for the nil interface, for
which `reflect.TypeOf` returns the nil `Type`. -/
def GoValue.typeName : GoValue → Option String
  | .nil => none
  | .str _ => some "string"
  | .int _ => some "int"
  | .int64 _ => some "int64"
  | .bytes _ => some "[]uint8"
  | .ifaces _ => some "[]interface \x7b\x7d"
  | .slice tname _ _ => some tname
  | .time _ => some "time.Time"
  | .valuer tname _ _ => some tname
  | .ptr tname _ => some tname
  | .error _ => some "redis.Error"
  | .other tname _ => some tname

/-! ## Connections -/

/-- A `redis.Conn`, reduced to `Do(commandName, args...) (reply, err)`: a
transition on the connection state `σ`. -/
structure Conn (σ : Type) where
  Do : σ → String → List GoValue → (GoValue × Option GoError) × σ

/-- One call of `Do` with what it returned. -/
structure Call where
  cmd : String
  args : List GoValue
  reply : GoValue
  err : Option GoError

/-- The command name and arguments of a call. -/
def Call.request (c : Call) : String × List GoValue := (c.cmd, c.args)

/-- The connection `c` with a record of the calls made through it. -/
def Conn.traced {σ : Type} (c : Conn σ) : Conn (σ × List Call) where
  Do := fun st cmd args =>
    let r := c.Do st.1 cmd args
    (r.1, (r.2, st.2 ++ [⟨cmd, args, r.1.1, r.1.2⟩]))

/-- The number of calls that returned no error. -/
def countOk (calls : List Call) : Int :=
  ((calls.filter fun c => c.err.isNone).length : Int)

/-- The error of the first call that returned one. -/
def firstErr (calls : List Call) : Option GoError :=
  (calls.filterMap fun c => c.err).head?

/-- The result triple of a bulk helper: `(total, applied, err)`. -/
structure BulkResult where
  total : Int
  applied : Int
  err : Option GoError

/-- Go's `if err == nil { ... } else if someErr == nil { someErr = err }`:
the first error is kept. -/
def keepFirst (someErr err : Option GoError) : Option GoError :=
  match someErr with
  | none => err
  | some e => some e

/-! ## xredis/helper.go -/

/-- The loop of `Helper.SetAll`, `for idx := range keys`, with `n` iterations
left from index `idx`. `cnt++` is exact: `cnt` never exceeds `len(keys)`. -/
def Helper.setAllLoop {σ : Type} (c : Conn σ) (keys values : List String) :
    Nat → Nat → σ → Int → Option GoError → Option ((Int × Option GoError) × σ)
  | 0, _, s, cnt, someErr => some ((cnt, someErr), s)
  | n + 1, idx, s, cnt, someErr =>
    match keys[idx]?, values[idx]? with
    | some key, some value =>
      let r := c.Do s "SET" [.str key, .str value]
      match r.1.2 with
      | none => Helper.setAllLoop c keys values n (idx + 1) r.2 (cnt + 1) someErr
      | some e => Helper.setAllLoop c keys values n (idx + 1) r.2 cnt (keepFirst someErr (some e))
    | _, _ => none

/-- `Helper.SetAll(keys, values)`: `none` is a panic. -/
def Helper.SetAll {σ : Type} (c : Conn σ) (s : σ) (keys values : List String) :
    Option (BulkResult × σ) :=
  if keys.length ≠ values.length then
    some (⟨0, 0, some ⟨"the length of keys and values is different"⟩⟩, s)
  else
    match Helper.setAllLoop c keys values keys.length 0 s 0 none with
    | some ((cnt, someErr), s') => some (⟨keys.length, cnt, someErr⟩, s')
    | none => none

/-- The loop of `Helper.SetExAll`, with `n` iterations left from index `idx`. -/
def Helper.setExAllLoop {σ : Type} (c : Conn σ) (keys values : List String) (exs : List Int) :
    Nat → Nat → σ → Int → Option GoError → Option ((Int × Option GoError) × σ)
  | 0, _, s, cnt, someErr => some ((cnt, someErr), s)
  | n + 1, idx, s, cnt, someErr =>
    match keys[idx]?, values[idx]?, exs[idx]? with
    | some key, some value, some ex =>
      let r := c.Do s "SET" [.str key, .str value, .int64 ex]
      match r.1.2 with
      | none => Helper.setExAllLoop c keys values exs n (idx + 1) r.2 (cnt + 1) someErr
      | some e =>
        Helper.setExAllLoop c keys values exs n (idx + 1) r.2 cnt (keepFirst someErr (some e))
    | _, _, _ => none

/-- `Helper.SetExAll(keys, values, exs)`: `none` is a panic. -/
def Helper.SetExAll {σ : Type} (c : Conn σ) (s : σ) (keys values : List String)
    (exs : List Int) : Option (BulkResult × σ) :=
  if keys.length ≠ values.length ∧ keys.length ≠ exs.length then
    some (⟨0, 0, some ⟨"the length of keys, values and exs is different"⟩⟩, s)
  else
    match Helper.setExAllLoop c keys values exs keys.length 0 s 0 none with
    | some ((cnt, someErr), s') => some (⟨keys.length, cnt, someErr⟩, s')
    | none => none

/-- Go's `int` addition on a 64-bit platform: the sum wraps around. -/
def wrapInt (x : Int) : Int := (x + 2 ^ 63) % 2 ^ 64 - 2 ^ 63

/-- The reply helpers of redigo that `DeleteAll` calls: `redis.Strings` and
`redis.Int`, each from a `(reply, err)` pair to a `(result, err)` pair. -/
structure Redigo where
  Strings : GoValue → Option GoError → List String × Option GoError
  Int : GoValue → Option GoError → Int × Option GoError

/-- The loop of `Helper.DeleteAll`, `for _, key := range keys`. -/
def Helper.deleteAllLoop {σ : Type} (R : Redigo) (c : Conn σ) :
    List String → σ → Int → Option GoError → (Int × Option GoError) × σ
  | [], s, cnt, someErr => ((cnt, someErr), s)
  | key :: rest, s, cnt, someErr =>
    let r := c.Do s "DEL" [.str key]
    let res := R.Int r.1.1 r.1.2
    match res.2 with
    | none => Helper.deleteAllLoop R c rest r.2 (wrapInt (cnt + res.1)) someErr
    | some e => Helper.deleteAllLoop R c rest r.2 cnt (keepFirst someErr (some e))

/-- `Helper.DeleteAll(pattern)`. -/
def Helper.DeleteAll {σ : Type} (R : Redigo) (c : Conn σ) (s : σ) (pattern : String) :
    BulkResult × σ :=
  let r := c.Do s "KEYS" [.str pattern]
  let ks := R.Strings r.1.1 r.1.2
  match ks.2 with
  | some e => (⟨0, 0, some e⟩, r.2)
  | none =>
    let out := Helper.deleteAllLoop R c ks.1 r.2 0 none
    (⟨ks.1.length, out.1.1, out.1.2⟩, out.2)

/-! ## redigo's reply helpers -/

/-- The decimal value of a digit character, if it is one. -/
def digitValue (c : Char) : Option Nat :=
  if 48 ≤ c.toNat ∧ c.toNat ≤ 57 then some (c.toNat - 48) else none

/-- The number a non-empty string of decimal digits denotes, read after the
digits that gave `acc`. -/
def parseDigits : List Char → Nat → Option Nat
  | [], acc => some acc
  | c :: rest, acc =>
    match digitValue c with
    | some d => parseDigits rest (10 * acc + d)
    | none => none

/-- What `strconv.ParseInt(s, 10, 0)` accepts on a 64-bit platform: an
optional sign, at least one digit, a value that fits an `int`. -/
def parseInt (s : List Char) : Option Int :=
  let body : Bool × List Char :=
    match s with
    | '-' :: rest => (true, rest)
    | '+' :: rest => (false, rest)
    | _ => (false, s)
  match body.2 with
  | [] => none
  | ds =>
    match parseDigits ds 0 with
    | none => none
    | some n =>
      let x : Int := if body.1 then -(n : Int) else (n : Int)
      if -(2 ^ 63 : Int) ≤ x ∧ x < 2 ^ 63 then some x else none

/-- The element conversion of `redis.Strings`; a nil element stays the empty
string. -/
def redisStringsElems : List GoValue → List String × Option GoError
  | [] => ([], none)
  | x :: rest =>
    let one : Option String :=
      match x with
      | .nil => some ""
      | .str s => some s
      | .bytes b => some b
      | _ => none
    match one with
    | none =>
      ([], some ⟨"redigo: unexpected element type for Strings, got type "
        ++ (x.typeName.getD "<nil>")⟩)
    | some s =>
      let r := redisStringsElems rest
      match r.2 with
      | none => (s :: r.1, none)
      | some e => ([], some e)

/-- A model of `redis.Strings(reply, err)`. -/
def redisStrings (reply : GoValue) (err : Option GoError) : List String × Option GoError :=
  match err with
  | some e => ([], some e)
  | none =>
    match reply with
    | .ifaces xs => redisStringsElems xs
    | .nil => ([], some ⟨"redigo: nil returned"⟩)
    | .error e => ([], some e)
    | v => ([], some ⟨"redigo: unexpected type for Strings, got type " ++ (v.typeName.getD "<nil>")⟩)

/-- A model of `redis.Int(reply, err)` on a 64-bit platform. -/
def redisInt (reply : GoValue) (err : Option GoError) : Int × Option GoError :=
  match err with
  | some e => (0, some e)
  | none =>
    match reply with
    | .int64 n => (n, none)
    | .bytes b =>
      match parseInt b.data with
      | some n => (n, none)
      | none => (0, some ⟨"strconv.ParseInt: parsing " ++ b ++ ": invalid syntax or out of range"⟩)
    | .nil => (0, some ⟨"redigo: nil returned"⟩)
    | .error e => (0, some e)
    | v => (0, some ⟨"redigo: unexpected type for Int, got type " ++ (v.typeName.getD "<nil>")⟩)

/-- The reply helpers as redigo implements them. -/
def redigo : Redigo := ⟨redisStrings, redisInt⟩

/-! ## The fmt and strings packages -/

/-- The part of package `fmt` the loggers use. `verbV` is the default format
of a value (what the verb `%v` prints for it). -/
structure Fmt where
  Sprintf : String → List GoValue → String
  Sprint : List GoValue → String
  verbV : GoValue → String

/-- The `%v` fragment of `fmt.Sprintf`: a format of literal text and `%v`
verbs with exactly one operand for each verb. `none` outside the fragment (any
other use of `%`, a missing or an extra operand). -/
def fillV (sh : GoValue → String) : List Char → List GoValue → Option (List Char)
  | [], [] => some []
  | [], _ :: _ => none
  | c :: rest, args =>
    if c = '%' then
      match rest, args with
      | d :: rest', a :: args' =>
        if d = 'v' then (fillV sh rest' args').map fun out => (sh a).data ++ out
        else none
      | _, _ => none
    else (fillV sh rest args).map fun out => c :: out

/-- A formatter agrees with `fmt` on the `%v` fragment: `%v` prints a string
operand as it is, and `Sprintf` fills each `%v` with the default format of its
operand. -/
def Fmt.Lawful (F : Fmt) : Prop :=
  (∀ s : String, F.verbV (.str s) = s) ∧
  ∀ (format : String) (args : List GoValue) (out : List Char),
    fillV F.verbV format.data args = some out → F.Sprintf format args = String.mk out

/-- The default format of strings, integers, nil and nil pointers; other
values are shown by their type name between angle brackets, which is not Go's
format. -/
def refShow : GoValue → String
  | .str s => s
  | .nil => "<nil>"
  | .int n => toString n
  | .int64 n => toString n
  | .ptr _ none => "<nil>"
  | .other _ text => text
  | v => "<" ++ (v.typeName.getD "") ++ ">"

/-- What `fmt.Sprintf` writes between `%!(EXTRA ` and `)` for the operands no
verb used: `type=value` for each, separated by a comma and a space, `<nil>`
for a nil operand. -/
def extraNote (sh : GoValue → String) : List GoValue → List Char
  | [] => []
  | a :: rest =>
    let one : List Char :=
      match a.typeName with
      | some t => t.data ++ '=' :: (sh a).data
      | none => "<nil>".data
    match rest with
    | [] => one
    | _ :: _ => one ++ ',' :: ' ' :: extraNote sh rest

/-- The fragment of `fmt.Sprintf` of the reference formatter: literal text,
`%%` (a percent sign, no operand used), `%v` (the default format of the next
operand, `%!v(MISSING)` when none is left), and the note `%!(EXTRA ...)` for
the operands left over at the end. `none` for any other use of `%`. -/
def fillX (sh : GoValue → String) : List Char → List GoValue → Option (List Char)
  | [], [] => some []
  | [], a :: args => some ("%!(EXTRA ".data ++ extraNote sh (a :: args) ++ [')'])
  | c :: rest, args =>
    if c = '%' then
      match rest with
      | d :: rest' =>
        if d = '%' then (fillX sh rest' args).map fun out => '%' :: out
        else if d = 'v' then
          match args with
          | a :: args' => (fillX sh rest' args').map fun out => (sh a).data ++ out
          | [] => (fillX sh rest' []).map fun out => "%!v(MISSING)".data ++ out
        else none
      | [] => none
    else (fillX sh rest args).map fun out => c :: out

/-- Go's `fmt.Sprint` over the default formats `sh`: a space is added between
two operands when neither is a string. -/
def sprintWith (sh : GoValue → String) : Bool → List GoValue → List Char
  | _, [] => []
  | prevString, a :: rest =>
    let isString : Bool := match a with
      | .str _ => true
      | _ => false
    (if prevString || isString then [] else [' ']) ++ (sh a).data
      ++ sprintWith sh isString rest

/-- A reference formatter: `fmt.Sprintf` on the fragment `fillX`; outside of
it the format is returned as it is, which is not Go's output. -/
def refFmt : Fmt where
  Sprintf := fun format args =>
    match fillX refShow format.data args with
    | some out => String.mk out
    | none => format
  Sprint := fun args => String.mk (sprintWith refShow true args)
  verbV := refShow

/-- Go's `unicode.IsSpace`. -/
def isSpace (c : Char) : Bool :=
  let n := c.toNat
  (9 ≤ n ∧ n ≤ 13) ∨ n = 32 ∨ n = 0x85 ∨ n = 0xA0 ∨ n = 0x1680 ∨ (0x2000 ≤ n ∧ n ≤ 0x200A)
    ∨ n = 0x2028 ∨ n = 0x2029 ∨ n = 0x202F ∨ n = 0x205F ∨ n = 0x3000

/-- Go's `strings.TrimSpace` on the characters of a string. -/
def trimSpace (cs : List Char) : List Char :=
  ((cs.dropWhile isSpace).reverse.dropWhile isSpace).reverse

/-- An `error` as an interface value; nothing in this package inspects its
dynamic type. -/
def GoError.toValue (e : GoError) : GoValue := .other "error" e.msg

/-! ## xredis/logger.go -/

/-- The function `renderCommand(cmd, args)`. -/
def renderCommand (F : Fmt) (cmd : String) (args : List GoValue) : String :=
  String.mk (trimSpace
    (args.foldl (fun out arg => out ++ " " ++ F.Sprintf "%v" [arg]) cmd).data)

/-- Go's `reply == "OK"` and `v[0] == "sql"`: an interface value equals a
string constant when its dynamic type is `string` and its value is that
string. -/
def GoValue.eqString (v : GoValue) (s : String) : Bool :=
  match v with
  | .str t => t == s
  | _ => false

/-- The slice view `reflect.ValueOf(v)` gives of a value of kind slice: the
name of the element type and the elements; `none` for any other kind. -/
def GoValue.asSlice : GoValue → Option (String × List GoValue)
  | .bytes b => some ("uint8", b.data.map fun c => .other "uint8" (toString c))
  | .ifaces xs => some ("interface \x7b\x7d", xs)
  | .slice _ elem xs => some (elem, xs)
  | _ => none

/-- The function `renderReply(reply)`; `none` is a panic. In the last branch
`fmt.Sprintf("%T", reply)` is the name of the dynamic type of `reply`. -/
def renderReply (reply : GoValue) : Option (Int × String) :=
  match reply with
  | .nil => some (0, "<nil>")
  | _ =>
    if reply.eqString "OK" then some (2, "string (OK)")
    else
      match reply.asSlice with
      | some (elem, xs) =>
        if elem = "uint8" then some (1, "string")
        else if elem = "interface \x7b\x7d" ∧ xs.length ≥ 1 then
          match xs[0]? with
          | some x =>
            match x.typeName with
            | some t => some (xs.length, if t = "[]uint8" then "string" else t)
            | none => none
          | none => none
        else some (xs.length, elem)
      | none =>
        match reply.typeName with
        | some t => some (1, t)
        | none => none

/-- A record handed to a `logrus.Logger`: `WithFields(fields)` followed by
`Info(msg)` or `Error(msg)`. -/
structure LogrusEntry where
  level : String
  fields : List (String × GoValue)
  msg : String

/-- What the environment supplies to one call of `Do`: the duration the
clock measured, as `Duration.String()` prints it, and the file and line
`runtime.Caller(l.Skip)` returns. -/
structure CallEnv where
  du : String
  file : String
  line : Int

/-- The method `LogrusRedis.print`: the records it hands to the logger; `none`
is a panic. -/
def LogrusRedis.print (F : Fmt) (env : CallEnv) (reply : GoValue) (err : Option GoError)
    (commandName : String) (v : List GoValue) : Option (List LogrusEntry) :=
  let cmd := renderCommand F commandName v
  let source := F.Sprintf "%s:%d" [.str env.file, .int env.line]
  match err with
  | some e =>
    some [⟨"error",
      [("module", .str "redis"), ("command", .str cmd), ("error", e.toValue),
        ("source", .str source)],
      F.Sprintf "[Redis] %v | %s | %s" [e.toValue, .str cmd, .str source]⟩]
  | none =>
    if cmd = "" then some []
    else
      match renderReply reply with
      | none => none
      | some (cnt, t) =>
        some [⟨"info",
          [("module", .str "redis"), ("command", .str cmd), ("count", .int cnt),
            ("duration", .str env.du), ("source", .str source)],
          F.Sprintf "[Redis] #: %3d | %12s | %15s | %s | %s"
            [.int cnt, .str env.du, .str t, .str cmd, .str source]⟩]

/-- The method `LogrusRedis.Do`: the pair returned, the state of the wrapped
connection and the records handed to the logger; `none` is a panic. -/
def LogrusRedis.Do {σ : Type} (F : Fmt) (env : CallEnv) (logMode : Bool) (c : Conn σ) (s : σ)
    (commandName : String) (args : List GoValue) :
    Option ((GoValue × Option GoError) × σ × List LogrusEntry) :=
  let r := c.Do s commandName args
  if logMode then
    match LogrusRedis.print F env r.1.1 r.1.2 commandName args with
    | some out => some (r.1, r.2, out)
    | none => none
  else some (r.1, r.2, [])

/-- The method `LoggerRedis.print`: the lines it prints through the
`log.Logger`; `none` is a panic. -/
def LoggerRedis.print (F : Fmt) (env : CallEnv) (reply : GoValue) (err : Option GoError)
    (commandName : String) (v : List GoValue) : Option (List String) :=
  let cmd := renderCommand F commandName v
  let source := F.Sprintf "%s:%d" [.str env.file, .int env.line]
  match err with
  | some e => some [F.Sprintf "[Redis] %v | %s | %s" [e.toValue, .str cmd, .str source]]
  | none =>
    if cmd = "" then some []
    else
      match renderReply reply with
      | none => none
      | some (cnt, t) =>
        some [F.Sprintf "[Redis] #: %3d | %12s | %15s | %s | %s"
          [.int cnt, .str env.du, .str t, .str cmd, .str source]]

/-- The method `LoggerRedis.Do`; `none` is a panic. -/
def LoggerRedis.Do {σ : Type} (F : Fmt) (env : CallEnv) (logMode : Bool) (c : Conn σ) (s : σ)
    (commandName : String) (args : List GoValue) :
    Option ((GoValue × Option GoError) × σ × List String) :=
  let r := c.Do s commandName args
  if logMode then
    match LoggerRedis.print F env r.1.1 r.1.2 commandName args with
    | some out => some (r.1, r.2, out)
    | none => none
  else some (r.1, r.2, [])

/-! ## xgorm/logger.go -/

/-- An ASCII digit, the class `\d` of Go's regexp package. -/
def isDigit (c : Char) : Bool := 48 ≤ c.toNat ∧ c.toNat ≤ 57

/-- The text starts with an ASCII digit. -/
def startsWithDigit : List Char → Bool
  | d :: _ => isDigit d
  | [] => false

/-- The scan of `sqlRegexp.ReplaceAllString(sql, "%v")` for the expression
`(\$\d+)|\?`: every match, taken leftmost and with all the digits that follow
the `$`, becomes `%v`. The flag says that the scan stands inside the digits of
a match. -/
def replaceAux : Bool → List Char → List Char
  | _, [] => []
  | inDigits, c :: rest =>
    if inDigits ∧ isDigit c then replaceAux true rest
    else if c = '?' then '%' :: 'v' :: replaceAux false rest
    else if c = '$' ∧ startsWithDigit rest then '%' :: 'v' :: replaceAux true rest
    else c :: replaceAux false rest

/-- The call `sqlRegexp.ReplaceAllString(sql, "%v")`. -/
def replacePlaceholders (sql : String) : String := String.mk (replaceAux false sql.data)

/-- The call `reflect.Indirect(reflect.ValueOf(value))`, followed by
`Interface()` when the result is valid; `none` when it is invalid (the nil
interface, a nil pointer). -/
def indirect : GoValue → Option GoValue
  | .nil => none
  | .ptr _ none => none
  | .ptr _ (some target) => some target
  | v => some v

/-- Go's `value != nil` for an interface value. -/
def GoValue.isNil : GoValue → Bool
  | .nil => true
  | _ => false

/-- The body of the loop of `render`: what is appended to `values` for one
parameter. -/
def literal (F : Fmt) (value : GoValue) : String :=
  match indirect value with
  | some (.time t) => F.Sprintf "'%v'" [.str t]
  | some (.bytes b) => F.Sprintf "'%v'" [.str b]
  | some (.valuer _ val err) =>
    if err.isNone ∧ val.isNil = false then F.Sprintf "'%v'" [val] else "NULL"
  | some v => F.Sprintf "'%v'" [v]
  | none => F.Sprintf "'%v'" [value]

/-- The function `render(sql, param)`; `none` is the panic of the type
assertion `param.([]interface{})`. -/
def render (F : Fmt) (sql : String) (param : GoValue) : Option String :=
  match param with
  | .ifaces ps =>
    let values := ps.map fun value => GoValue.str (literal F value)
    let result := F.Sprintf (replacePlaceholders sql) values
    some (String.mk (trimSpace result.data))
  | _ => none

/-- The method `LogrusLogger.Print(v...)`: the records handed to the logger;
`none` is a panic. -/
def LogrusLogger.Print (F : Fmt) (v : List GoValue) : Option (List LogrusEntry) :=
  if v.length ≤ 1 then some []
  else if v.length = 2 then
    match v[0]?, v[1]? with
    | some v0, some v1 =>
      some [⟨"info", [("module", .str "gorm"), ("type", v0), ("info", v1)],
        F.Sprintf (F.Sprintf "[Gorm] %v" [v1]) []⟩]
    | _, _ => none
  else
    match v[0]? with
    | none => none
    | some v0 =>
      if v0.eqString "sql" then
        match v[1]?, v[2]?, v[3]? with
        | some source, some duration, some (GoValue.str tmpl) =>
          match v[4]? with
          | none => none
          | some param =>
            match render F tmpl param with
            | none => none
            | some sql =>
              match v[5]? with
              | none => none
              | some rows =>
                some [⟨"info",
                  [("module", .str "gorm"), ("type", .str "sql"), ("source", source),
                    ("duration", duration), ("sql", .str sql), ("rows", rows)],
                  F.Sprintf "[Gorm] #: %4d | %12s | %s | %s"
                    [rows, duration, .str sql, source]⟩]
        | _, _, _ => none
      else
        let msg := F.Sprint (v.drop 2)
        some [⟨"info", [("module", .str "gorm"), ("type", v0), ("message", .str msg)],
          F.Sprintf "[Gorm] [%s] %s" [v0, .str msg]⟩]

/-- The method `StdLogLogger.Print(v...)`: the lines printed through the
`log.Logger`; `none` is a panic. -/
def StdLogLogger.Print (F : Fmt) (v : List GoValue) : Option (List String) :=
  if v.length ≤ 1 then some []
  else if v.length = 2 then
    match v[1]? with
    | some v1 => some [F.Sprintf "[Gorm] %v" [v1]]
    | none => none
  else
    match v[0]? with
    | none => none
    | some v0 =>
      if v0.eqString "sql" then
        match v[1]?, v[2]?, v[3]? with
        | some source, some duration, some (GoValue.str tmpl) =>
          match v[4]? with
          | none => none
          | some param =>
            match render F tmpl param with
            | none => none
            | some sql =>
              match v[5]? with
              | none => none
              | some rows =>
                some [F.Sprintf "[Gorm] #: %4d | %12s | %s | %s"
                  [rows, duration, .str sql, source]]
        | _, _, _ => none
      else some [F.Sprintf "[Gorm] %s" [.str (F.Sprint (v.drop 2))]]

/-! ## Vocabulary of the statements -/

/-- The text holds a placeholder token, a match of `(\$\d+)|\?`: a `?`, or
a `$` followed by a digit. -/
def hasPlaceholder : List Char → Bool
  | [] => false
  | c :: rest =>
    if c = '?' then true
    else if c = '$' ∧ startsWithDigit rest then true
    else hasPlaceholder rest

/-- The number of placeholder tokens of a template, scanned as
`ReplaceAllString` finds the matches of `(\$\d+)|\?`. -/
def countAux : Bool → List Char → Nat
  | _, [] => 0
  | inDigits, c :: rest =>
    if inDigits ∧ isDigit c then countAux true rest
    else if c = '?' then countAux false rest + 1
    else if c = '$' ∧ startsWithDigit rest then countAux true rest + 1
    else countAux false rest

/-- The number of placeholders of a templated statement. -/
def countPlaceholders (sql : String) : Nat := countAux false sql.data

/-- The first literal and the literals after it; the empty text when none is
left. -/
def nextLiteral : List String → List Char × List String
  | l :: lits => (l.data, lits)
  | [] => ([], [])

/-- The template with its placeholders replaced, in order, by the given
literals. -/
def substAux : Bool → List Char → List String → List Char
  | _, [], _ => []
  | inDigits, c :: rest, lits =>
    if inDigits ∧ isDigit c then substAux true rest lits
    else if c = '?' then (nextLiteral lits).1 ++ substAux false rest (nextLiteral lits).2
    else if c = '$' ∧ startsWithDigit rest then
      (nextLiteral lits).1 ++ substAux true rest (nextLiteral lits).2
    else c :: substAux false rest lits

/-- The templated statement `sql` with its placeholders substituted. -/
def substitute (sql : String) (lits : List String) : String :=
  String.mk (substAux false sql.data lits)

/-- A literal wrapped in single quotes. -/
def Quoted (s : String) : Prop := ∃ body : String, s = "'" ++ body ++ "'"

/-- The text `s` between single quotes. -/
def quote (s : String) : String := "'" ++ s ++ "'"

/-- The literal of a value that is not behind a pointer, in the words of the
specification: a timestamp is its quoted RFC3339 text, a byte sequence the
quoted text of its bytes, a value-producing wrapper the quoted value it
produces, or the word `NULL` when it fails or produces nil, and any other
value its quoted default format. -/
def specResolved (F : Fmt) : GoValue → String
  | .time t => quote t
  | .bytes b => quote b
  | .valuer _ val err =>
    match err, val with
    | none, .nil => "NULL"
    | none, v => quote (F.verbV v)
    | some _, _ => "NULL"
  | v => quote (F.verbV v)

/-- The literal of an argument, in the words of the specification: one level
of indirection is resolved first; a nil value or nil pointer is the quoted
default format of the value itself. -/
def specLiteral (F : Fmt) : GoValue → String
  | .nil => quote (F.verbV .nil)
  | .ptr tname none => quote (F.verbV (.ptr tname none))
  | .ptr _ (some target) => specResolved F target
  | v => specResolved F v

/-! ## Vocabulary of the statements on the bulk helpers -/

/-- The sum of the integers `redis.Int` reads from the `DEL` calls it
accepts. -/
def delCount (R : Redigo) (dels : List Call) : Int :=
  ((dels.filter fun d => (R.Int d.reply d.err).2.isNone).map
    fun d => (R.Int d.reply d.err).1).sum

/-- The first error `redis.Int` returns over the `DEL` calls. -/
def delFirstErr (R : Redigo) (dels : List Call) : Option GoError :=
  (dels.filterMap fun d => (R.Int d.reply d.err).2).head?

/-- Every `DEL` of one key is answered, whatever the state of the connection,
by an error or by an integer that is 0 or 1. -/
def DelAtMostOne {σ : Type} (R : Redigo) (c : Conn σ) : Prop :=
  ∀ (s : σ) (key : String),
    (R.Int (c.Do s "DEL" [.str key]).1.1 (c.Do s "DEL" [.str key]).1.2).2 = none →
      0 ≤ (R.Int (c.Do s "DEL" [.str key]).1.1 (c.Do s "DEL" [.str key]).1.2).1 ∧
      (R.Int (c.Do s "DEL" [.str key]).1.1 (c.Do s "DEL" [.str key]).1.2).1 ≤ 1

/-- A connection that answers every command with the status `OK`. -/
def okConn : Conn Unit := ⟨fun s _ _ => ((.str "OK", none), s)⟩

/-- A connection whose state counts the calls made and whose second call
fails. -/
def secondFails : Conn Nat :=
  ⟨fun s _ _ => if s = 1 then ((.nil, some ⟨"connection reset"⟩), s + 1)
    else ((.str "OK", none), s + 1)⟩

/-- A connection holding three keys of which the second is gone when it is
deleted: `KEYS` returns the three, `DEL` returns 1, 0, 1. -/
def threeKeys : Conn Nat :=
  ⟨fun s cmd _ =>
    if cmd = "KEYS" then ((.ifaces [.bytes "user:1", .bytes "user:2", .bytes "user:3"], none), s + 1)
    else ((.int64 (if s = 2 then 0 else 1), none), s + 1)⟩

/-- A connection that answers `KEYS` with one key and every `DEL` with the
integer 2. -/
def delTwo : Conn Unit :=
  ⟨fun s cmd _ =>
    if cmd = "KEYS" then ((.ifaces [.bytes "k"], none), s) else ((.int64 2, none), s)⟩

/-- A connection that answers every command with a one-element multi-bulk
reply whose element is nil, as redis answers `MGET` of a missing key. -/
def missingKey : Conn Unit := ⟨fun s _ _ => ((.ifaces [.nil], none), s)⟩

/-- The environment of the examples. -/
def exampleEnv : CallEnv := ⟨"1ms", "main.go", 10⟩

/-- The record `LogrusLogger.Print` hands over for a SQL event. -/
def sqlEntry (F : Fmt) (source duration : GoValue) (sql : String) (rows : GoValue) :
    LogrusEntry :=
  ⟨"info",
    [("module", .str "gorm"), ("type", .str "sql"), ("source", source),
      ("duration", duration), ("sql", .str sql), ("rows", rows)],
    F.Sprintf "[Gorm] #: %4d | %12s | %s | %s" [rows, duration, .str sql, source]⟩

/-- The record `LogrusLogger.Print` hands over for an informational
message. -/
def infoEntry (F : Fmt) (v0 v1 : GoValue) : LogrusEntry :=
  ⟨"info", [("module", .str "gorm"), ("type", v0), ("info", v1)],
    F.Sprintf (F.Sprintf "[Gorm] %v" [v1]) []⟩

/-- The record `LogrusLogger.Print` hands over for a generic event. -/
def otherEntry (F : Fmt) (v0 : GoValue) (msg : String) : LogrusEntry :=
  ⟨"info", [("module", .str "gorm"), ("type", v0), ("message", .str msg)],
    F.Sprintf "[Gorm] [%s] %s" [v0, .str msg]⟩

/-! # Theorems -/

/-! ## Lemmas on the call record -/

theorem countOk_nil : countOk [] = 0 := rfl

theorem firstErr_nil : firstErr [] = none := rfl

theorem countOk_cons_ok (c : Call) (calls : List Call) (h : c.err = none) :
    countOk (c :: calls) = 1 + countOk calls := by
  simp [countOk, h, List.filter_cons]
  omega

theorem countOk_cons_err (c : Call) (calls : List Call) (e : GoError) (h : c.err = some e) :
    countOk (c :: calls) = countOk calls := by
  simp [countOk, h, List.filter_cons]

theorem firstErr_cons_ok (c : Call) (calls : List Call) (h : c.err = none) :
    firstErr (c :: calls) = firstErr calls := by
  simp [firstErr, h, List.filterMap_cons]

theorem firstErr_cons_err (c : Call) (calls : List Call) (e : GoError) (h : c.err = some e) :
    firstErr (c :: calls) = some e := by
  simp [firstErr, h, List.filterMap_cons]

theorem keepFirst_assoc (a : Option GoError) (e : GoError) (b : Option GoError) :
    keepFirst (keepFirst a (some e)) b = keepFirst a (some e) := by
  cases a <;> rfl

theorem keepFirst_none_right (a : Option GoError) : keepFirst a none = a := by
  cases a <;> rfl

theorem traced_Do {σ : Type} (c : Conn σ) (s : σ) (tr : List Call) (cmd : String)
    (args : List GoValue) :
    c.traced.Do (s, tr) cmd args
      = ((c.Do s cmd args).1,
          ((c.Do s cmd args).2,
            tr ++ [⟨cmd, args, (c.Do s cmd args).1.1, (c.Do s cmd args).1.2⟩])) := rfl

theorem setAllLoop_spec {σ : Type} (c : Conn σ) (keys values : List String)
    (hlen : keys.length = values.length) :
    ∀ (n idx : Nat) (s : σ) (tr : List Call) (cnt : Int) (someErr : Option GoError),
      idx + n = keys.length →
      ∃ (s' : σ) (calls : List Call),
        Helper.setAllLoop c.traced keys values n idx (s, tr) cnt someErr
          = some ((cnt + countOk calls, keepFirst someErr (firstErr calls)), (s', tr ++ calls)) ∧
        Helper.setAllLoop c keys values n idx s cnt someErr
          = some ((cnt + countOk calls, keepFirst someErr (firstErr calls)), s') ∧
        calls.map Call.request
          = List.zipWith (fun k v => ("SET", [GoValue.str k, GoValue.str v]))
              (keys.drop idx) (values.drop idx) := by
  intro n
  induction n with
  | zero =>
    intro idx s tr cnt someErr hidx
    refine ⟨s, [], ?_, ?_, ?_⟩
    · simp [Helper.setAllLoop, countOk_nil, firstErr_nil, keepFirst_none_right]
    · simp [Helper.setAllLoop, countOk_nil, firstErr_nil, keepFirst_none_right]
    · have : keys.length ≤ idx := by omega
      simp [List.drop_of_length_le this]
  | succ n ih =>
    intro idx s tr cnt someErr hidx
    have hk : idx < keys.length := by omega
    have hv : idx < values.length := by omega
    have hkd : keys.drop idx = keys[idx] :: keys.drop (idx + 1) := List.drop_eq_getElem_cons hk
    have hvd : values.drop idx = values[idx] :: values.drop (idx + 1) :=
      List.drop_eq_getElem_cons hv
    cases herr : (c.Do s "SET" [GoValue.str keys[idx], GoValue.str values[idx]]).1.2 with
    | none =>
      obtain ⟨s', calls, h1, h2, h3⟩ :=
        ih (idx + 1) (c.Do s "SET" [GoValue.str keys[idx], GoValue.str values[idx]]).2
          (tr ++ [⟨"SET", [GoValue.str keys[idx], GoValue.str values[idx]],
            (c.Do s "SET" [GoValue.str keys[idx], GoValue.str values[idx]]).1.1, none⟩])
          (cnt + 1) someErr (by omega)
      refine ⟨s', ⟨"SET", [GoValue.str keys[idx], GoValue.str values[idx]],
            (c.Do s "SET" [GoValue.str keys[idx], GoValue.str values[idx]]).1.1, none⟩ :: calls,
        ?_, ?_, ?_⟩
      · simp only [Helper.setAllLoop, List.getElem?_eq_getElem hk, List.getElem?_eq_getElem hv,
          traced_Do, herr]
        rw [h1, countOk_cons_ok _ _ rfl, firstErr_cons_ok _ _ rfl]
        simp [add_assoc]
      · simp only [Helper.setAllLoop, List.getElem?_eq_getElem hk, List.getElem?_eq_getElem hv,
          herr]
        rw [h2, countOk_cons_ok _ _ rfl, firstErr_cons_ok _ _ rfl]
        simp [add_assoc]
      · rw [hkd, hvd, List.zipWith_cons_cons, ← h3]
        rfl
    | some e =>
      obtain ⟨s', calls, h1, h2, h3⟩ :=
        ih (idx + 1) (c.Do s "SET" [GoValue.str keys[idx], GoValue.str values[idx]]).2
          (tr ++ [⟨"SET", [GoValue.str keys[idx], GoValue.str values[idx]],
            (c.Do s "SET" [GoValue.str keys[idx], GoValue.str values[idx]]).1.1, some e⟩])
          cnt (keepFirst someErr (some e)) (by omega)
      refine ⟨s', ⟨"SET", [GoValue.str keys[idx], GoValue.str values[idx]],
            (c.Do s "SET" [GoValue.str keys[idx], GoValue.str values[idx]]).1.1, some e⟩ :: calls,
        ?_, ?_, ?_⟩
      · simp only [Helper.setAllLoop, List.getElem?_eq_getElem hk, List.getElem?_eq_getElem hv,
          traced_Do, herr]
        rw [h1, countOk_cons_err _ _ e rfl, firstErr_cons_err _ _ e rfl, keepFirst_assoc]
        simp
      · simp only [Helper.setAllLoop, List.getElem?_eq_getElem hk, List.getElem?_eq_getElem hv,
          herr]
        rw [h2, countOk_cons_err _ _ e rfl, firstErr_cons_err _ _ e rfl, keepFirst_assoc]
      · rw [hkd, hvd, List.zipWith_cons_cons, ← h3]
        rfl

/-- C1: with lists of one length, `SetAll` sends one `SET key value` for each
pair, in list order and past every failure, and returns the number of keys,
the number of `SET`s that returned no error and the error of the first `SET`
that failed (nil when none did). -/
theorem SetAll_every_pair {σ : Type} (c : Conn σ) (s : σ) (keys values : List String)
    (h : keys.length = values.length) :
    ∃ (s' : σ) (calls : List Call),
      Helper.SetAll c.traced (s, []) keys values
        = some (⟨keys.length, countOk calls, firstErr calls⟩, (s', calls)) ∧
      Helper.SetAll c s keys values
        = some (⟨keys.length, countOk calls, firstErr calls⟩, s') ∧
      calls.map Call.request
        = List.zipWith (fun k v => ("SET", [GoValue.str k, GoValue.str v])) keys values := by
  obtain ⟨s', calls, h1, h2, h3⟩ :=
    setAllLoop_spec c keys values h keys.length 0 s [] 0 none (by omega)
  refine ⟨s', calls, ?_, ?_, ?_⟩
  · rw [Helper.SetAll, if_neg (by simpa using h), h1]
    simp [keepFirst]
  · rw [Helper.SetAll, if_neg (by simpa using h), h2]
    simp [keepFirst]
  · simpa using h3

/-- C2: with lists of different lengths `SetAll` returns `(0, 0, err)` with a
non-nil error and never calls the connection: no call is recorded and the
state of the connection is unchanged. -/
theorem SetAll_length_mismatch {σ : Type} (c : Conn σ) (s : σ) (keys values : List String)
    (h : keys.length ≠ values.length) :
    ∃ e : GoError,
      Helper.SetAll c.traced (s, []) keys values = some (⟨0, 0, some e⟩, (s, [])) ∧
      Helper.SetAll c s keys values = some (⟨0, 0, some e⟩, s) := by
  refine ⟨⟨"the length of keys and values is different"⟩, ?_, ?_⟩
  · rw [Helper.SetAll, if_pos h]
  · rw [Helper.SetAll, if_pos h]

theorem SetAll_length_mismatch_witness :
    ∃ e : GoError,
      Helper.SetAll okConn.traced ((), []) ["a", "b"] ["1"] = some (⟨0, 0, some e⟩, ((), [])) ∧
      Helper.SetAll okConn () ["a", "b"] ["1"] = some (⟨0, 0, some e⟩, ()) :=
  SetAll_length_mismatch okConn () ["a", "b"] ["1"] (by decide)

theorem SetAll_every_pair_witness :
    ∃ (s' : Nat) (calls : List Call),
      Helper.SetAll secondFails.traced (0, []) ["a", "b"] ["1", "2"]
        = some (⟨2, countOk calls, firstErr calls⟩, (s', calls)) ∧
      Helper.SetAll secondFails 0 ["a", "b"] ["1", "2"]
        = some (⟨2, countOk calls, firstErr calls⟩, s') ∧
      calls.map Call.request
        = List.zipWith (fun k v => ("SET", [GoValue.str k, GoValue.str v])) ["a", "b"] ["1", "2"] :=
  SetAll_every_pair secondFails 0 ["a", "b"] ["1", "2"] (by decide)

/-- The example of C1: the second `SET` fails. -/
theorem SetAll_second_fails :
    (Helper.SetAll secondFails 0 ["a", "b"] ["1", "2"]).map (fun r => (r.1.total, r.1.applied, r.1.err))
      = some (2, 1, some ⟨"connection reset"⟩) := by
  rfl

/-- C3 (the code departs from it): `SetExAll` with one key, one value and two
expiries, three lengths that are not all equal, is not rejected: it sends one
`SET` and returns `(1, 1, nil)`; with two keys, one value and two expiries it
sends one `SET` and then panics on `values[1]`. -/
theorem SetExAll_accepts_mismatch :
    Helper.SetExAll okConn.traced ((), []) ["a"] ["1"] [1, 2]
      = some (⟨1, 1, none⟩,
          ((), [⟨"SET", [.str "a", .str "1", .int64 1], .str "OK", none⟩])) ∧
    Helper.SetExAll okConn.traced ((), []) ["a", "b"] ["1"] [1, 2] = none := by
  constructor <;> rfl

theorem wrapInt_idem (x : Int) : wrapInt (wrapInt x) = wrapInt x := by
  unfold wrapInt; omega

theorem wrapInt_add_left (a b : Int) : wrapInt (wrapInt a + b) = wrapInt (a + b) := by
  unfold wrapInt; omega

theorem wrapInt_of_range (x : Int) (h0 : -(2 ^ 63) ≤ x) (h1 : x < 2 ^ 63) : wrapInt x = x := by
  unfold wrapInt; omega

theorem wrapInt_le (x : Int) (h0 : -(2 ^ 63) ≤ x) : wrapInt x ≤ x := by
  unfold wrapInt; omega

theorem wrapInt_ge (x : Int) : -(2 ^ 63) ≤ wrapInt x := by
  unfold wrapInt; omega

theorem delCount_nil (R : Redigo) : delCount R [] = 0 := rfl

theorem delFirstErr_nil (R : Redigo) : delFirstErr R [] = none := rfl

theorem delCount_cons_ok (R : Redigo) (d : Call) (dels : List Call)
    (h : (R.Int d.reply d.err).2 = none) :
    delCount R (d :: dels) = (R.Int d.reply d.err).1 + delCount R dels := by
  simp [delCount, h, List.filter_cons]

theorem delCount_cons_err (R : Redigo) (d : Call) (dels : List Call) (e : GoError)
    (h : (R.Int d.reply d.err).2 = some e) :
    delCount R (d :: dels) = delCount R dels := by
  simp [delCount, h, List.filter_cons]

theorem delFirstErr_cons_ok (R : Redigo) (d : Call) (dels : List Call)
    (h : (R.Int d.reply d.err).2 = none) :
    delFirstErr R (d :: dels) = delFirstErr R dels := by
  simp [delFirstErr, h, List.filterMap_cons]

theorem delFirstErr_cons_err (R : Redigo) (d : Call) (dels : List Call) (e : GoError)
    (h : (R.Int d.reply d.err).2 = some e) :
    delFirstErr R (d :: dels) = some e := by
  simp [delFirstErr, h, List.filterMap_cons]

theorem deleteAllLoop_spec {σ : Type} (R : Redigo) (c : Conn σ) :
    ∀ (keys : List String) (s : σ) (tr : List Call) (cnt : Int) (someErr : Option GoError),
      wrapInt cnt = cnt →
      ∃ (s' : σ) (dels : List Call),
        Helper.deleteAllLoop R c.traced keys (s, tr) cnt someErr
          = ((wrapInt (cnt + delCount R dels), keepFirst someErr (delFirstErr R dels)),
              (s', tr ++ dels)) ∧
        Helper.deleteAllLoop R c keys s cnt someErr
          = ((wrapInt (cnt + delCount R dels), keepFirst someErr (delFirstErr R dels)), s') ∧
        dels.map Call.request = keys.map (fun k => ("DEL", [GoValue.str k])) := by
  intro keys
  induction keys with
  | nil =>
    intro s tr cnt someErr hc
    refine ⟨s, [], ?_, ?_, rfl⟩
    · simp [Helper.deleteAllLoop, delCount_nil, delFirstErr_nil, keepFirst_none_right, hc]
    · simp [Helper.deleteAllLoop, delCount_nil, delFirstErr_nil, keepFirst_none_right, hc]
  | cons key rest ih =>
    intro s tr cnt someErr hc
    cases herr : (R.Int (c.Do s "DEL" [GoValue.str key]).1.1
        (c.Do s "DEL" [GoValue.str key]).1.2).2 with
    | none =>
      obtain ⟨s', dels, h1, h2, h3⟩ :=
        ih (c.Do s "DEL" [GoValue.str key]).2
          (tr ++ [⟨"DEL", [GoValue.str key], (c.Do s "DEL" [GoValue.str key]).1.1,
            (c.Do s "DEL" [GoValue.str key]).1.2⟩])
          (wrapInt (cnt + (R.Int (c.Do s "DEL" [GoValue.str key]).1.1
            (c.Do s "DEL" [GoValue.str key]).1.2).1)) someErr (wrapInt_idem _)
      refine ⟨s', ⟨"DEL", [GoValue.str key], (c.Do s "DEL" [GoValue.str key]).1.1,
            (c.Do s "DEL" [GoValue.str key]).1.2⟩ :: dels, ?_, ?_, ?_⟩
      · simp only [Helper.deleteAllLoop, traced_Do, herr]
        rw [h1, delCount_cons_ok R _ _ herr, delFirstErr_cons_ok R _ _ herr, wrapInt_add_left]
        simp [add_assoc]
      · simp only [Helper.deleteAllLoop, herr]
        rw [h2, delCount_cons_ok R _ _ herr, delFirstErr_cons_ok R _ _ herr, wrapInt_add_left]
        simp [add_assoc]
      · rw [List.map_cons, List.map_cons, h3]
        rfl
    | some e =>
      obtain ⟨s', dels, h1, h2, h3⟩ :=
        ih (c.Do s "DEL" [GoValue.str key]).2
          (tr ++ [⟨"DEL", [GoValue.str key], (c.Do s "DEL" [GoValue.str key]).1.1,
            (c.Do s "DEL" [GoValue.str key]).1.2⟩])
          cnt (keepFirst someErr (some e)) hc
      refine ⟨s', ⟨"DEL", [GoValue.str key], (c.Do s "DEL" [GoValue.str key]).1.1,
            (c.Do s "DEL" [GoValue.str key]).1.2⟩ :: dels, ?_, ?_, ?_⟩
      · simp only [Helper.deleteAllLoop, traced_Do, herr]
        rw [h1, delCount_cons_err R _ _ e herr, delFirstErr_cons_err R _ _ e herr,
          keepFirst_assoc]
        simp
      · simp only [Helper.deleteAllLoop, herr]
        rw [h2, delCount_cons_err R _ _ e herr, delFirstErr_cons_err R _ _ e herr,
          keepFirst_assoc]
      · rw [List.map_cons, List.map_cons, h3]
        rfl

/-- C4: when `redis.Strings` returns an error for the `KEYS` query, `DeleteAll`
returns `(0, 0, that error)` and the `KEYS` call is the only call made; when it
returns the keys `k1..kn`, `DeleteAll` sends after it one `DEL` for each key,
in order and past every failure, and returns `n`, the sum of the integers read
from the `DEL`s that `redis.Int` accepts, and the first error of a `DEL` (nil
when none failed). The sum is the Go `int` the loop accumulates: it is the
exact sum whenever that fits an `int`. -/
theorem DeleteAll_spec {σ : Type} (R : Redigo) (c : Conn σ) (s : σ) (pattern : String) :
    (∀ e : GoError,
      (R.Strings (c.Do s "KEYS" [.str pattern]).1.1 (c.Do s "KEYS" [.str pattern]).1.2).2 = some e →
      Helper.DeleteAll R c.traced (s, []) pattern
        = (⟨0, 0, some e⟩,
            ((c.Do s "KEYS" [.str pattern]).2,
              [⟨"KEYS", [.str pattern], (c.Do s "KEYS" [.str pattern]).1.1,
                (c.Do s "KEYS" [.str pattern]).1.2⟩])) ∧
      Helper.DeleteAll R c s pattern = (⟨0, 0, some e⟩, (c.Do s "KEYS" [.str pattern]).2)) ∧
    ((R.Strings (c.Do s "KEYS" [.str pattern]).1.1 (c.Do s "KEYS" [.str pattern]).1.2).2 = none →
      ∃ (s' : σ) (dels : List Call),
        Helper.DeleteAll R c.traced (s, []) pattern
          = (⟨((R.Strings (c.Do s "KEYS" [.str pattern]).1.1
                  (c.Do s "KEYS" [.str pattern]).1.2).1.length : Int),
                wrapInt (delCount R dels), delFirstErr R dels⟩,
              (s', ⟨"KEYS", [.str pattern], (c.Do s "KEYS" [.str pattern]).1.1,
                (c.Do s "KEYS" [.str pattern]).1.2⟩ :: dels)) ∧
        Helper.DeleteAll R c s pattern
          = (⟨((R.Strings (c.Do s "KEYS" [.str pattern]).1.1
                  (c.Do s "KEYS" [.str pattern]).1.2).1.length : Int),
                wrapInt (delCount R dels), delFirstErr R dels⟩, s') ∧
        dels.map Call.request
          = (R.Strings (c.Do s "KEYS" [.str pattern]).1.1
              (c.Do s "KEYS" [.str pattern]).1.2).1.map (fun k => ("DEL", [GoValue.str k])) ∧
        (-(2 ^ 63) ≤ delCount R dels → delCount R dels < 2 ^ 63 →
          wrapInt (delCount R dels) = delCount R dels)) := by
  constructor
  · intro e he
    constructor
    · simp only [Helper.DeleteAll, traced_Do, he]
      simp
    · simp only [Helper.DeleteAll, he]
  · intro hk
    obtain ⟨s', dels, h1, h2, h3⟩ :=
      deleteAllLoop_spec R c
        (R.Strings (c.Do s "KEYS" [.str pattern]).1.1 (c.Do s "KEYS" [.str pattern]).1.2).1
        (c.Do s "KEYS" [.str pattern]).2
        [⟨"KEYS", [.str pattern], (c.Do s "KEYS" [.str pattern]).1.1,
          (c.Do s "KEYS" [.str pattern]).1.2⟩] 0 none (by decide)
    refine ⟨s', dels, ?_, ?_, h3, wrapInt_of_range _⟩
    · simp only [Helper.DeleteAll, traced_Do, hk, List.nil_append]
      rw [h1]
      simp [keepFirst]
    · simp only [Helper.DeleteAll, hk]
      rw [h2]
      simp [keepFirst]

/-- The example of C4: three keys, `DEL` replies 1, 0, 1. -/
theorem DeleteAll_three_keys :
    (Helper.DeleteAll redigo threeKeys 0 "user:*").1.total = 3 ∧
    (Helper.DeleteAll redigo threeKeys 0 "user:*").1.applied = 2 ∧
    (Helper.DeleteAll redigo threeKeys 0 "user:*").1.err = none := by
  refine ⟨?_, ?_, ?_⟩ <;> decide

theorem DeleteAll_spec_witness :
    ∃ (s' : Nat) (dels : List Call),
      Helper.DeleteAll redigo threeKeys.traced (0, []) "user:*"
        = (⟨3, wrapInt (delCount redigo dels), delFirstErr redigo dels⟩,
            (s', ⟨"KEYS", [.str "user:*"],
              .ifaces [.bytes "user:1", .bytes "user:2", .bytes "user:3"], none⟩ :: dels)) ∧
      Helper.DeleteAll redigo threeKeys 0 "user:*"
        = (⟨3, wrapInt (delCount redigo dels), delFirstErr redigo dels⟩, s') ∧
      dels.map Call.request
        = ["user:1", "user:2", "user:3"].map (fun k => ("DEL", [GoValue.str k])) ∧
      (-(2 ^ 63) ≤ delCount redigo dels → delCount redigo dels < 2 ^ 63 →
        wrapInt (delCount redigo dels) = delCount redigo dels) :=
  (DeleteAll_spec redigo threeKeys 0 "user:*").2 rfl

theorem setAllLoop_le {σ : Type} (c : Conn σ) (keys values : List String) :
    ∀ (n idx : Nat) (s : σ) (cnt : Int) (someErr : Option GoError)
      (out : (Int × Option GoError) × σ),
      Helper.setAllLoop c keys values n idx s cnt someErr = some out → out.1.1 ≤ cnt + n := by
  intro n
  induction n with
  | zero =>
    intro idx s cnt someErr out h
    simp only [Helper.setAllLoop, Option.some.injEq] at h
    subst h
    simp
  | succ n ih =>
    intro idx s cnt someErr out h
    rw [Helper.setAllLoop] at h
    split at h
    · dsimp only at h
      split at h
      · have := ih _ _ _ _ _ h
        push_cast
        omega
      · have := ih _ _ _ _ _ h
        push_cast
        omega
    · exact absurd h (by simp)

theorem setExAllLoop_le {σ : Type} (c : Conn σ) (keys values : List String) (exs : List Int) :
    ∀ (n idx : Nat) (s : σ) (cnt : Int) (someErr : Option GoError)
      (out : (Int × Option GoError) × σ),
      Helper.setExAllLoop c keys values exs n idx s cnt someErr = some out →
        out.1.1 ≤ cnt + n := by
  intro n
  induction n with
  | zero =>
    intro idx s cnt someErr out h
    simp only [Helper.setExAllLoop, Option.some.injEq] at h
    subst h
    simp
  | succ n ih =>
    intro idx s cnt someErr out h
    rw [Helper.setExAllLoop] at h
    split at h
    · dsimp only at h
      split at h
      · have := ih _ _ _ _ _ h
        push_cast
        omega
      · have := ih _ _ _ _ _ h
        push_cast
        omega
    · exact absurd h (by simp)

theorem deleteAllLoop_le {σ : Type} (R : Redigo) (c : Conn σ) (hR : DelAtMostOne R c) :
    ∀ (keys : List String) (s : σ) (cnt : Int) (someErr : Option GoError),
      -(2 ^ 63) ≤ cnt →
      (Helper.deleteAllLoop R c keys s cnt someErr).1.1 ≤ cnt + keys.length := by
  intro keys
  induction keys with
  | nil =>
    intro s cnt someErr _
    simp [Helper.deleteAllLoop]
  | cons key rest ih =>
    intro s cnt someErr hc
    rw [Helper.deleteAllLoop]
    have hb := hR s key
    split
    · rename_i herr
      have hb' := hb herr
      have h1 := ih (c.Do s "DEL" [GoValue.str key]).2
        (wrapInt (cnt + (R.Int (c.Do s "DEL" [GoValue.str key]).1.1
            (c.Do s "DEL" [GoValue.str key]).1.2).1)) someErr (wrapInt_ge _)
      have h2 := wrapInt_le (cnt + (R.Int (c.Do s "DEL" [GoValue.str key]).1.1
            (c.Do s "DEL" [GoValue.str key]).1.2).1) (by omega)
      simp only [List.length_cons]
      push_cast
      omega
    · have h1 := ih (c.Do s "DEL" [GoValue.str key]).2 cnt (keepFirst someErr (some ‹_›)) hc
      simp only [List.length_cons]
      push_cast
      omega

/-- C5, amended: whenever `SetAll` or `SetExAll` returns, its result has
`applied ≤ total`; the result of `DeleteAll` has `applied ≤ total` on a
connection that answers every `DEL` of one key by an error or by 0 or 1. -/
theorem bulk_applied_le_total {σ : Type} (R : Redigo) (c : Conn σ) (hR : DelAtMostOne R c)
    (s : σ) (keys values : List String) (exs : List Int) (pattern : String) :
    (∀ (r : BulkResult) (s' : σ),
      Helper.SetAll c s keys values = some (r, s') → r.applied ≤ r.total) ∧
    (∀ (r : BulkResult) (s' : σ),
      Helper.SetExAll c s keys values exs = some (r, s') → r.applied ≤ r.total) ∧
    (Helper.DeleteAll R c s pattern).1.applied ≤ (Helper.DeleteAll R c s pattern).1.total := by
  refine ⟨?_, ?_, ?_⟩
  · intro r s' h
    rw [Helper.SetAll] at h
    split at h
    · simp only [Option.some.injEq, Prod.mk.injEq] at h
      rw [← h.1]
    · split at h
      · rename_i cnt someErr s'' hl
        have := setAllLoop_le c keys values _ _ _ _ _ _ hl
        simp only [Option.some.injEq, Prod.mk.injEq] at h
        rw [← h.1]
        simpa using this
      · exact absurd h (by simp)
  · intro r s' h
    rw [Helper.SetExAll] at h
    split at h
    · simp only [Option.some.injEq, Prod.mk.injEq] at h
      rw [← h.1]
    · split at h
      · rename_i cnt someErr s'' hl
        have := setExAllLoop_le c keys values exs _ _ _ _ _ _ hl
        simp only [Option.some.injEq, Prod.mk.injEq] at h
        rw [← h.1]
        simpa using this
      · exact absurd h (by simp)
  · rw [Helper.DeleteAll]
    split
    · simp
    · have := deleteAllLoop_le R c hR
        (R.Strings (c.Do s "KEYS" [.str pattern]).1.1 (c.Do s "KEYS" [.str pattern]).1.2).1
        (c.Do s "KEYS" [.str pattern]).2 0 none (by decide)
      simpa using this

theorem threeKeys_delAtMostOne : DelAtMostOne redigo threeKeys := by
  intro s key _
  have h : threeKeys.Do s "DEL" [GoValue.str key]
      = ((GoValue.int64 (if s = 2 then 0 else 1), none), s + 1) := by
    simp [threeKeys]
  rw [h]
  simp only [redigo, redisInt]
  constructor <;> split <;> omega

theorem bulk_applied_le_total_witness :
    (∀ (r : BulkResult) (s' : Nat),
      Helper.SetAll threeKeys 0 ["a", "b"] ["1", "2"] = some (r, s') → r.applied ≤ r.total) ∧
    (∀ (r : BulkResult) (s' : Nat),
      Helper.SetExAll threeKeys 0 ["a", "b"] ["1", "2"] [10, 20] = some (r, s') →
        r.applied ≤ r.total) ∧
    (Helper.DeleteAll redigo threeKeys 0 "user:*").1.applied
      ≤ (Helper.DeleteAll redigo threeKeys 0 "user:*").1.total :=
  bulk_applied_le_total redigo threeKeys threeKeys_delAtMostOne 0 ["a", "b"] ["1", "2"] [10, 20]
    "user:*"

/-- C5 as stated fails: on a connection that answers the `DEL` of one key with
the integer 2, `DeleteAll` returns `(1, 2, nil)`. -/
theorem DeleteAll_applied_exceeds_total :
    (Helper.DeleteAll redigo delTwo () "k*").1.total = 1 ∧
    (Helper.DeleteAll redigo delTwo () "k*").1.applied = 2 ∧
    (Helper.DeleteAll redigo delTwo () "k*").1.err = none ∧
    ¬ (Helper.DeleteAll redigo delTwo () "k*").1.applied
        ≤ (Helper.DeleteAll redigo delTwo () "k*").1.total := by
  refine ⟨?_, ?_, ?_, ?_⟩ <;> decide

/-- C6 (the code departs from it): on a non-empty `[]interface{}` whose first
element is nil, as `MGET` returns for a missing key, `renderReply` does not
return: `reflect.TypeOf(nil)` is the nil `Type` and the call of its `String`
method panics. -/
theorem renderReply_nil_first_element :
    renderReply (.ifaces [.nil]) = none ∧
    renderReply (.ifaces [.nil, .bytes "v"]) = none := by
  constructor <;> rfl

/-- C7: `renderReply(nil)` is `(0, "<nil>")`; of the string `OK` it is
`(2, "string (OK)")`; of every byte slice, the empty one too, it is
`(1, "string")`; of every other non-nil value that is not a slice it is 1 and
the name of the dynamic type of the value. -/
theorem renderReply_scalars :
    renderReply .nil = some (0, "<nil>") ∧
    renderReply (.str "OK") = some (2, "string (OK)") ∧
    (∀ b : String, renderReply (.bytes b) = some (1, "string")) ∧
    (∀ v : GoValue, v ≠ .nil → v ≠ .str "OK" → v.asSlice = none →
      ∃ t : String, v.typeName = some t ∧ renderReply v = some (1, t)) ∧
    renderReply (.int 42) = some (1, "int") ∧
    renderReply (.str "PONG") = some (1, "string") := by
  refine ⟨rfl, rfl, fun b => ?_, ?_, rfl, rfl⟩
  · simp [renderReply, GoValue.eqString, GoValue.asSlice]
  · intro v hnil hok hs
    cases v with
    | nil => exact absurd rfl hnil
    | str s =>
      have hs' : s ≠ "OK" := fun h => hok (by rw [h])
      exact ⟨"string", rfl, by simp [renderReply, GoValue.eqString, GoValue.asSlice, GoValue.typeName, hs']⟩
    | int n => exact ⟨"int", rfl, by simp [renderReply, GoValue.eqString, GoValue.asSlice, GoValue.typeName]⟩
    | int64 n => exact ⟨"int64", rfl, by simp [renderReply, GoValue.eqString, GoValue.asSlice, GoValue.typeName]⟩
    | bytes b => simp [GoValue.asSlice] at hs
    | ifaces xs => simp [GoValue.asSlice] at hs
    | slice tn el xs => simp [GoValue.asSlice] at hs
    | time t => exact ⟨"time.Time", rfl, by simp [renderReply, GoValue.eqString, GoValue.asSlice, GoValue.typeName]⟩
    | valuer tn val err => exact ⟨tn, rfl, by simp [renderReply, GoValue.eqString, GoValue.asSlice, GoValue.typeName]⟩
    | ptr tn tgt => exact ⟨tn, rfl, by simp [renderReply, GoValue.eqString, GoValue.asSlice, GoValue.typeName]⟩
    | error e => exact ⟨"redis.Error", rfl, by simp [renderReply, GoValue.eqString, GoValue.asSlice, GoValue.typeName]⟩
    | other tn text => exact ⟨tn, rfl, by simp [renderReply, GoValue.eqString, GoValue.asSlice, GoValue.typeName]⟩

/-- C10 (the code departs from it): with `LogMode` set, `Do` of a command whose
reply is a multi-bulk reply with a nil first element calls the wrapped
connection and then panics in `renderReply`, so the reply is not returned. -/
theorem Do_panics_on_nil_element :
    LogrusRedis.Do refFmt exampleEnv true missingKey () "MGET" [.str "k"] = none ∧
    LoggerRedis.Do refFmt exampleEnv true missingKey () "MGET" [.str "k"] = none ∧
    missingKey.Do () "MGET" [.str "k"] = ((.ifaces [.nil], none), ()) := by
  refine ⟨?_, ?_, rfl⟩ <;> rfl

/-- Whenever `LogMode` is off, and whenever it is on and `renderReply` does
not panic on the reply, `Do` calls the wrapped connection once with the
command and arguments it was given, and returns the pair that call returned;
with `LogMode` off nothing is logged. -/
theorem Do_passes_through {σ : Type} (F : Fmt) (env : CallEnv) (c : Conn σ) (s : σ)
    (commandName : String) (args : List GoValue) :
    LogrusRedis.Do F env false c.traced (s, []) commandName args
      = some ((c.Do s commandName args).1,
          ((c.Do s commandName args).2,
            [⟨commandName, args, (c.Do s commandName args).1.1, (c.Do s commandName args).1.2⟩]),
          []) ∧
    LoggerRedis.Do F env false c.traced (s, []) commandName args
      = some ((c.Do s commandName args).1,
          ((c.Do s commandName args).2,
            [⟨commandName, args, (c.Do s commandName args).1.1, (c.Do s commandName args).1.2⟩]),
          []) ∧
    (∀ (logMode : Bool) (out : (GoValue × Option GoError) × (σ × List Call) × List LogrusEntry),
      LogrusRedis.Do F env logMode c.traced (s, []) commandName args = some out →
        out.1 = (c.Do s commandName args).1 ∧
        out.2.1 = ((c.Do s commandName args).2,
          [⟨commandName, args, (c.Do s commandName args).1.1,
            (c.Do s commandName args).1.2⟩])) ∧
    (∀ (logMode : Bool) (out : (GoValue × Option GoError) × (σ × List Call) × List String),
      LoggerRedis.Do F env logMode c.traced (s, []) commandName args = some out →
        out.1 = (c.Do s commandName args).1 ∧
        out.2.1 = ((c.Do s commandName args).2,
          [⟨commandName, args, (c.Do s commandName args).1.1,
            (c.Do s commandName args).1.2⟩])) := by
  refine ⟨?_, ?_, ?_, ?_⟩
  · simp [LogrusRedis.Do, traced_Do]
  · simp [LoggerRedis.Do, traced_Do]
  · intro logMode out h
    simp only [LogrusRedis.Do, traced_Do, List.nil_append] at h
    split at h
    · split at h
      · simp only [Option.some.injEq] at h
        subst h
        exact ⟨rfl, rfl⟩
      · exact absurd h (by simp)
    · simp only [Option.some.injEq] at h
      subst h
      exact ⟨rfl, rfl⟩
  · intro logMode out h
    simp only [LoggerRedis.Do, traced_Do, List.nil_append] at h
    split at h
    · split at h
      · simp only [Option.some.injEq] at h
        subst h
        exact ⟨rfl, rfl⟩
      · exact absurd h (by simp)
    · simp only [Option.some.injEq] at h
      subst h
      exact ⟨rfl, rfl⟩

theorem eqString_eq_false (v0 : GoValue) (h : v0 ≠ .str "sql") : v0.eqString "sql" = false := by
  cases v0 with
  | str s =>
    have hs : s ≠ "sql" := fun e => h (by rw [e])
    simp [GoValue.eqString, hs]
  | _ => rfl

/-- C9, amended: `Print` dispatches on the shape of `v`. Zero or one field:
nothing is emitted. Two fields: an informational record of `v[1]`. `v[0]`
equal to `"sql"` followed by at least five fields of which `v[3]` is a string
and `v[4]` a `[]interface{}`: a SQL record of the source, the duration, the
rendered statement and the rows. At least three fields and `v[0]` not `"sql"`:
a generic record whose body is `fmt.Sprint(v[2:]...)`. -/
theorem Print_dispatch (F : Fmt) (v : List GoValue) :
    (v.length ≤ 1 → LogrusLogger.Print F v = some [] ∧ StdLogLogger.Print F v = some []) ∧
    (∀ v0 v1 : GoValue, v = [v0, v1] →
      LogrusLogger.Print F v = some [infoEntry F v0 v1] ∧
      StdLogLogger.Print F v = some [F.Sprintf "[Gorm] %v" [v1]]) ∧
    (∀ (source duration : GoValue) (tmpl : String) (params : List GoValue) (rows : GoValue)
        (rest : List GoValue),
      v = .str "sql" :: source :: duration :: .str tmpl :: .ifaces params :: rows :: rest →
      ∃ sql : String, render F tmpl (.ifaces params) = some sql ∧
        LogrusLogger.Print F v = some [sqlEntry F source duration sql rows] ∧
        StdLogLogger.Print F v
          = some [F.Sprintf "[Gorm] #: %4d | %12s | %s | %s" [rows, duration, .str sql, source]]) ∧
    (∀ v0 : GoValue, 3 ≤ v.length → v.head? = some v0 → v0 ≠ .str "sql" →
      LogrusLogger.Print F v = some [otherEntry F v0 (F.Sprint (v.drop 2))] ∧
      StdLogLogger.Print F v = some [F.Sprintf "[Gorm] %s" [.str (F.Sprint (v.drop 2))]]) := by
  refine ⟨?_, ?_, ?_, ?_⟩
  · intro h
    simp [LogrusLogger.Print, StdLogLogger.Print, h]
  · intro v0 v1 h
    subst h
    simp [LogrusLogger.Print, StdLogLogger.Print, infoEntry]
  · intro source duration tmpl params rows rest h
    subst h
    refine ⟨_, rfl, ?_, ?_⟩
    · simp [LogrusLogger.Print, GoValue.eqString, render, sqlEntry]
    · simp [StdLogLogger.Print, GoValue.eqString, render]
  · intro v0 hlen hhead hne
    have he := eqString_eq_false v0 hne
    match v, hlen, hhead with
    | a :: b :: c :: rest, _, hhead =>
      simp only [List.head?_cons, Option.some.injEq] at hhead
      subst hhead
      simp [LogrusLogger.Print, StdLogLogger.Print, he, otherEntry]

theorem Print_dispatch_witness :
    LogrusLogger.Print refFmt [.str "error", .str "main.go:7", .str "record not found"]
      = some [otherEntry refFmt (.str "error") (refFmt.Sprint [.str "record not found"])] ∧
    StdLogLogger.Print refFmt [.str "error", .str "main.go:7", .str "record not found"]
      = some [refFmt.Sprintf "[Gorm] %s" [.str (refFmt.Sprint [.str "record not found"])]] :=
  (Print_dispatch refFmt [.str "error", .str "main.go:7", .str "record not found"]).2.2.2
    (.str "error") (by decide) rfl (by simp)

/-- C9 as stated fails: a field sequence of length three whose first field is
`"sql"` is not treated as a generic event: `Print` takes the SQL branch and
panics on `v[3]`. -/
theorem Print_short_sql_panics :
    LogrusLogger.Print refFmt [.str "sql", .str "main.go:7", .str "1ms"] = none ∧
    StdLogLogger.Print refFmt [.str "sql", .str "main.go:7", .str "1ms"] = none := by
  constructor <;> rfl

theorem fillV_verb (sh : GoValue → String) (rest : List Char) (a : GoValue)
    (args : List GoValue) :
    fillV sh ('%' :: 'v' :: rest) (a :: args)
      = (fillV sh rest args).map fun out => (sh a).data ++ out := by
  simp [fillV]

theorem fillV_text (sh : GoValue → String) (c : Char) (rest : List Char) (args : List GoValue)
    (hc : c ≠ '%') :
    fillV sh (c :: rest) args = (fillV sh rest args).map fun out => c :: out := by
  cases rest <;> cases args <;> simp [fillV, hc]

theorem fillV_replaceAux (sh : GoValue → String) (hsh : ∀ s : String, sh (.str s) = s) :
    ∀ (sql : List Char) (b : Bool) (lits : List String),
      '%' ∉ sql → countAux b sql = lits.length →
      fillV sh (replaceAux b sql) (lits.map GoValue.str) = some (substAux b sql lits) := by
  intro sql
  induction sql with
  | nil =>
    intro b lits _ hn
    simp only [countAux] at hn
    have : lits = [] := List.length_eq_zero.mp hn.symm
    subst this
    simp [replaceAux, substAux, fillV]
  | cons c rest ih =>
    intro b lits hpct hn
    have hc : c ≠ '%' := fun h => hpct (by simp [h])
    have hrest : '%' ∉ rest := fun h => hpct (List.mem_cons_of_mem _ h)
    rw [replaceAux.eq_2, substAux.eq_2]
    rw [countAux.eq_2] at hn
    by_cases h1 : b = true ∧ isDigit c = true
    · rw [if_pos h1] at hn ⊢
      rw [if_pos h1]
      exact ih true lits hrest hn
    · rw [if_neg h1] at hn ⊢
      rw [if_neg h1]
      by_cases h2 : c = '?'
      · rw [if_pos h2] at hn ⊢
        rw [if_pos h2]
        cases lits with
        | nil => simp at hn
        | cons l lits' =>
          simp only [List.length_cons, add_left_inj] at hn
          rw [List.map_cons, fillV_verb, ih false lits' hrest hn, hsh]
          rfl
      · rw [if_neg h2] at hn ⊢
        rw [if_neg h2]
        by_cases h3 : c = '$' ∧ startsWithDigit rest = true
        · rw [if_pos h3] at hn ⊢
          rw [if_pos h3]
          cases lits with
          | nil => simp at hn
          | cons l lits' =>
            simp only [List.length_cons, add_left_inj] at hn
            rw [List.map_cons, fillV_verb, ih true lits' hrest hn, hsh]
            rfl
        · rw [if_neg h3] at hn ⊢
          rw [if_neg h3, fillV_text sh c _ _ hc, ih false lits hrest hn]
          rfl

theorem sprintf_quote (F : Fmt) (hF : F.Lawful) (v : GoValue) :
    F.Sprintf "'%v'" [v] = quote (F.verbV v) := by
  rw [hF.2 "'%v'" [v] (quote (F.verbV v)).data]
  simp [fillV, quote]

theorem literal_eq_specLiteral (F : Fmt) (hF : F.Lawful) (a : GoValue) :
    literal F a = specLiteral F a := by
  have hs := hF.1
  have hq := sprintf_quote F hF
  cases a with
  | valuer tn val err =>
    cases err <;> cases val <;>
      simp [literal, indirect, specLiteral, specResolved, GoValue.isNil, hq, hs]
  | ptr tn tgt =>
    cases tgt with
    | none => simp [literal, indirect, specLiteral, hq]
    | some x =>
      cases x with
      | valuer tn val err =>
        cases err <;> cases val <;>
          simp [literal, indirect, specLiteral, specResolved, GoValue.isNil, hq, hs]
      | _ => simp [literal, indirect, specLiteral, specResolved, hq, hs]
  | _ => simp [literal, indirect, specLiteral, specResolved, hq, hs]

theorem specResolved_null_or_quoted (F : Fmt) (x : GoValue) :
    specResolved F x = "NULL" ∨ Quoted (specResolved F x) := by
  cases x with
  | valuer tn val err =>
    cases err with
    | some e => exact Or.inl (by simp [specResolved])
    | none =>
      cases val with
      | nil => exact Or.inl (by simp [specResolved])
      | _ => exact Or.inr ⟨_, by simp only [specResolved]; rfl⟩
  | _ => exact Or.inr ⟨_, by simp only [specResolved]; rfl⟩

theorem specLiteral_null_or_quoted (F : Fmt) (a : GoValue) :
    specLiteral F a = "NULL" ∨ Quoted (specLiteral F a) := by
  cases a with
  | nil => exact Or.inr ⟨_, rfl⟩
  | ptr tn tgt =>
    cases tgt with
    | none => exact Or.inr ⟨_, rfl⟩
    | some x => exact specResolved_null_or_quoted F x
  | str s => exact specResolved_null_or_quoted F (.str s)
  | int n => exact specResolved_null_or_quoted F (.int n)
  | int64 n => exact specResolved_null_or_quoted F (.int64 n)
  | bytes b => exact specResolved_null_or_quoted F (.bytes b)
  | ifaces xs => exact specResolved_null_or_quoted F (.ifaces xs)
  | slice tn el xs => exact specResolved_null_or_quoted F (.slice tn el xs)
  | time t => exact specResolved_null_or_quoted F (.time t)
  | valuer tn val err => exact specResolved_null_or_quoted F (.valuer tn val err)
  | error e => exact specResolved_null_or_quoted F (.error e)
  | other tn text => exact specResolved_null_or_quoted F (.other tn text)

theorem hasPlaceholder_append_clean (l r : List Char)
    (hl : ∀ c ∈ l, c ≠ '?' ∧ c ≠ '$') (hr : hasPlaceholder r = false) :
    hasPlaceholder (l ++ r) = false := by
  induction l with
  | nil => simpa using hr
  | cons c l ih =>
    have hc := hl c (by simp)
    have ih' := ih (fun x hx => hl x (List.mem_cons_of_mem _ hx))
    rw [List.cons_append, hasPlaceholder.eq_2, if_neg hc.1, if_neg (fun h => hc.2 h.1)]
    exact ih'

theorem hasPlaceholder_tail (c : Char) (rest : List Char)
    (h : hasPlaceholder (c :: rest) = false) : hasPlaceholder rest = false := by
  rw [hasPlaceholder.eq_2] at h
  split at h
  · exact absurd h (by simp)
  · split at h
    · exact absurd h (by simp)
    · exact h

theorem hasPlaceholder_dropWhile (p : Char → Bool) (l : List Char)
    (h : hasPlaceholder l = false) : hasPlaceholder (l.dropWhile p) = false := by
  induction l with
  | nil => simpa using h
  | cons c l ih =>
    rw [List.dropWhile_cons]
    split
    · exact ih (hasPlaceholder_tail c l h)
    · exact h

theorem startsWithDigit_append (p q : List Char) (h : startsWithDigit p = true) :
    startsWithDigit (p ++ q) = true := by
  cases p with
  | nil => simp [startsWithDigit] at h
  | cons d p => simpa [startsWithDigit] using h

theorem hasPlaceholder_left (p q : List Char) (h : hasPlaceholder (p ++ q) = false) :
    hasPlaceholder p = false := by
  induction p with
  | nil => rfl
  | cons c p ih =>
    rw [List.cons_append, hasPlaceholder.eq_2] at h
    rw [hasPlaceholder.eq_2]
    split at h
    · exact absurd h (by simp)
    · rename_i h1
      split at h
      · exact absurd h (by simp)
      · rename_i h2
        rw [if_neg h1, if_neg (fun hh => h2 ⟨hh.1, startsWithDigit_append p q hh.2⟩)]
        exact ih h

theorem hasPlaceholder_trimSpace (l : List Char) (h : hasPlaceholder l = false) :
    hasPlaceholder (trimSpace l) = false := by
  have h1 := hasPlaceholder_dropWhile isSpace l h
  have h2 : ((l.dropWhile isSpace).reverse.dropWhile isSpace).reverse
      ++ ((l.dropWhile isSpace).reverse.takeWhile isSpace).reverse = l.dropWhile isSpace := by
    rw [← List.reverse_append, List.takeWhile_append_dropWhile, List.reverse_reverse]
  rw [← h2] at h1
  exact hasPlaceholder_left _ _ h1

theorem startsWithDigit_substAux (rest : List Char) (lits : List String)
    (hne : ∀ l ∈ lits, startsWithDigit l.data = false ∧ l.data ≠ [])
    (hn : countAux false rest = lits.length)
    (h : startsWithDigit (substAux false rest lits) = true) : startsWithDigit rest = true := by
  cases rest with
  | nil => simp [substAux, startsWithDigit] at h
  | cons d rest =>
    rw [substAux.eq_2] at h
    rw [countAux.eq_2] at hn
    rw [if_neg (by simp)] at h hn
    have hlit : ∀ tl : List Char, lits.length ≠ 0 →
        startsWithDigit ((nextLiteral lits).1 ++ tl) = false := by
      intro tl hl
      cases lits with
      | nil => exact absurd rfl hl
      | cons l lits' =>
        have := hne l (by simp)
        simp only [nextLiteral]
        cases hd : l.data with
        | nil => exact absurd hd this.2
        | cons x xs =>
          have h0 := this.1
          rw [hd] at h0
          simpa [startsWithDigit] using h0
    split at h
    · rw [if_pos ‹_›] at hn
      rw [hlit _ (by omega)] at h
      exact absurd h (by simp)
    · rw [if_neg ‹_›] at hn
      split at h
      · rw [if_pos ‹_›] at hn
        rw [hlit _ (by omega)] at h
        exact absurd h (by simp)
      · simpa [startsWithDigit] using h

theorem hasPlaceholder_substAux :
    ∀ (sql : List Char) (b : Bool) (lits : List String),
      (∀ l ∈ lits, ∀ c ∈ l.data, c ≠ '?' ∧ c ≠ '$') →
      (∀ l ∈ lits, startsWithDigit l.data = false ∧ l.data ≠ []) →
      countAux b sql = lits.length →
      hasPlaceholder (substAux b sql lits) = false := by
  intro sql
  induction sql with
  | nil =>
    intro b lits _ _ _
    simp [substAux, hasPlaceholder]
  | cons c rest ih =>
    intro b lits hclean hne hn
    rw [substAux.eq_2]
    rw [countAux.eq_2] at hn
    have hnext : ∀ (b' : Bool), countAux b' rest + 1 = lits.length →
        hasPlaceholder ((nextLiteral lits).1 ++ substAux b' rest (nextLiteral lits).2) = false := by
      intro b' hn'
      cases lits with
      | nil => simp at hn'
      | cons l lits' =>
        simp only [List.length_cons, add_left_inj] at hn'
        simp only [nextLiteral]
        exact hasPlaceholder_append_clean _ _ (hclean l (by simp))
          (ih b' lits' (fun x hx => hclean x (List.mem_cons_of_mem _ hx))
            (fun x hx => hne x (List.mem_cons_of_mem _ hx)) hn')
    by_cases h1 : b = true ∧ isDigit c = true
    · rw [if_pos h1] at hn ⊢
      exact ih true lits hclean hne hn
    · rw [if_neg h1] at hn ⊢
      by_cases h2 : c = '?'
      · rw [if_pos h2] at hn ⊢
        exact hnext false hn
      · rw [if_neg h2] at hn ⊢
        by_cases h3 : c = '$' ∧ startsWithDigit rest = true
        · rw [if_pos h3] at hn ⊢
          exact hnext true hn
        · rw [if_neg h3] at hn ⊢
          rw [hasPlaceholder.eq_2, if_neg h2,
            if_neg (fun hh => h3 ⟨hh.1, startsWithDigit_substAux rest lits hne hn hh.2⟩)]
          exact ih false lits hclean hne hn

theorem specLiteral_head (F : Fmt) (a : GoValue) :
    startsWithDigit (specLiteral F a).data = false ∧ (specLiteral F a).data ≠ [] := by
  rcases specLiteral_null_or_quoted F a with h | ⟨body, h⟩
  · rw [h]
    decide
  · rw [h]
    simp [startsWithDigit, isDigit]

/-- C8, amended: for a template without `%` that holds N placeholders and a
sequence of exactly N arguments, `render` returns the template, trimmed of
surrounding white space, in which every placeholder is replaced, in order, by
the literal of its argument as the specification words it (`specLiteral`):
after one level of indirection, the quoted RFC3339 text of a timestamp, the
quoted text of a byte sequence, the quoted value a `driver.Valuer` produces or
the word `NULL` when it fails or produces nil, the quoted default format of
any other value. Each literal is `NULL` or wrapped in single quotes, and a
placeholder token can be left in the result only by the text of a literal. -/
theorem render_substitutes (F : Fmt) (hF : F.Lawful) (sql : String) (args : List GoValue)
    (hpct : '%' ∉ sql.data) (hn : countPlaceholders sql = args.length) :
    render F sql (.ifaces args)
      = some (String.mk (trimSpace (substitute sql (args.map (specLiteral F))).data)) ∧
    (∀ a ∈ args, specLiteral F a = "NULL" ∨ Quoted (specLiteral F a)) ∧
    ((∀ a ∈ args, ∀ c ∈ (specLiteral F a).data, c ≠ '?' ∧ c ≠ '$') →
      hasPlaceholder (trimSpace (substitute sql (args.map (specLiteral F))).data) = false) := by
  have hlit : args.map (literal F) = args.map (specLiteral F) :=
    List.map_congr_left fun a _ => literal_eq_specLiteral F hF a
  refine ⟨?_, ?_, ?_⟩
  · have h := fillV_replaceAux F.verbV hF.1 sql.data false (args.map (literal F)) hpct
      (by simpa [countPlaceholders] using hn)
    have h2 := hF.2 (replacePlaceholders sql) ((args.map (literal F)).map GoValue.str) _ h
    simp only [render, substitute]
    rw [List.map_map] at h2
    rw [show (List.map (fun value => GoValue.str (literal F value)) args)
      = List.map (GoValue.str ∘ literal F) args from rfl, h2, hlit]
  · intro a _
    exact specLiteral_null_or_quoted F a
  · intro hclean
    apply hasPlaceholder_trimSpace
    apply hasPlaceholder_substAux sql.data false (args.map (specLiteral F))
    · intro l hl
      obtain ⟨a, ha, rfl⟩ := List.mem_map.mp hl
      exact hclean a ha
    · intro l hl
      obtain ⟨a, _, rfl⟩ := List.mem_map.mp hl
      exact specLiteral_head F a
    · simpa [countPlaceholders] using hn

theorem fillX_verb (sh : GoValue → String) (rest : List Char) (a : GoValue)
    (args : List GoValue) :
    fillX sh ('%' :: 'v' :: rest) (a :: args)
      = (fillX sh rest args).map fun out => (sh a).data ++ out := by
  simp [fillX]

theorem fillX_text (sh : GoValue → String) (c : Char) (rest : List Char) (args : List GoValue)
    (hc : c ≠ '%') :
    fillX sh (c :: rest) args = (fillX sh rest args).map fun out => c :: out := by
  cases rest <;> cases args <;> simp [fillX, hc]

theorem fillX_of_fillV (sh : GoValue → String) :
    ∀ (n : Nat) (format : List Char) (args : List GoValue) (out : List Char),
      format.length ≤ n → fillV sh format args = some out → fillX sh format args = some out := by
  intro n
  induction n with
  | zero =>
    intro format args out hlen h
    have : format = [] := List.length_eq_zero.mp (by omega)
    subst this
    cases args with
    | nil => simpa [fillV, fillX] using h
    | cons a args => simp [fillV] at h
  | succ n ih =>
    intro format args out hlen h
    cases format with
    | nil =>
      cases args with
      | nil => simpa [fillV, fillX] using h
      | cons a args => simp [fillV] at h
    | cons c rest =>
      by_cases hc : c = '%'
      · subst hc
        cases rest with
        | nil => cases args <;> simp [fillV] at h
        | cons d rest' =>
          cases args with
          | nil => simp [fillV] at h
          | cons a args' =>
            by_cases hd : d = 'v'
            · subst hd
              rw [fillV_verb] at h
              rw [fillX_verb]
              cases hr : fillV sh rest' args' with
              | none => simp [hr] at h
              | some o =>
                have := ih rest' args' o (by simp at hlen; omega) hr
                rw [hr] at h
                rw [this]
                exact h
            · simp [fillV, hd] at h
      · rw [fillV_text sh c rest args hc] at h
        rw [fillX_text sh c rest args hc]
        cases hr : fillV sh rest args with
        | none => simp [hr] at h
        | some o =>
          have := ih rest args o (by simp at hlen; omega) hr
          rw [hr] at h
          rw [this]
          exact h

theorem refFmt_lawful : refFmt.Lawful := by
  refine ⟨fun s => rfl, ?_⟩
  intro format args out h
  have h' : fillX refShow format.data args = some out :=
    fillX_of_fillV refShow format.data.length format.data args out (Nat.le_refl _) h
  simp [refFmt, h']

theorem render_substitutes_witness :
    render refFmt " a = ? AND b = $1 " (.ifaces [.bytes "hi", .valuer "sql.NullString" .nil none])
      = some (String.mk (trimSpace (substitute " a = ? AND b = $1 "
          ([GoValue.bytes "hi", .valuer "sql.NullString" .nil none].map
            (specLiteral refFmt))).data)) ∧
    (∀ a ∈ [GoValue.bytes "hi", .valuer "sql.NullString" .nil none],
      specLiteral refFmt a = "NULL" ∨ Quoted (specLiteral refFmt a)) ∧
    ((∀ a ∈ [GoValue.bytes "hi", .valuer "sql.NullString" .nil none],
        ∀ c ∈ (specLiteral refFmt a).data, c ≠ '?' ∧ c ≠ '$') →
      hasPlaceholder (trimSpace (substitute " a = ? AND b = $1 "
          ([GoValue.bytes "hi", .valuer "sql.NullString" .nil none].map
            (specLiteral refFmt))).data)
        = false) :=
  render_substitutes refFmt refFmt_lawful " a = ? AND b = $1 "
    [.bytes "hi", .valuer "sql.NullString" .nil none] (by decide) (by decide)

/-- The value of the example of C8, and the literals of a timestamp behind a
pointer, of a byte sequence and of a `driver.Valuer` that produces a string. -/
theorem render_example :
    render refFmt " a = ? AND b = $1 " (.ifaces [.bytes "hi", .valuer "sql.NullString" .nil none])
      = some "a = 'hi' AND b = NULL" ∧
    render refFmt "t = ? AND b = ? AND n = $3"
        (.ifaces [.ptr "*time.Time" (some (.time "2023-01-01T00:00:00Z")), .bytes "hi",
          .valuer "sql.NullString" (.str "bob") none])
      = some "t = '2023-01-01T00:00:00Z' AND b = 'hi' AND n = 'bob'" := by
  constructor <;> decide

theorem not_quoted_NULL : ¬ Quoted "NULL" := by
  rintro ⟨body, h⟩
  have := congrArg String.data h
  simp at this

/-- C8 as stated fails. The template `?` has one placeholder; with the one
argument a `driver.Valuer` whose value is nil, the literal substituted is
`NULL`, without quotes. The template `%?` has one placeholder; with the one
argument `"x"` the placeholder is not replaced by the literal (which would
give `%'x'`): `fmt.Sprintf` reads `%%v`, prints `%v` and reports the literal
as an extra operand. -/
theorem render_unquoted_or_unsubstituted :
    countPlaceholders "?" = 1 ∧
    render refFmt "?" (.ifaces [.valuer "sql.NullString" .nil none]) = some "NULL" ∧
    ¬ Quoted "NULL" ∧
    countPlaceholders "%?" = 1 ∧
    substitute "%?" [specLiteral refFmt (.str "x")] = "%'x'" ∧
    render refFmt "%?" (.ifaces [.str "x"]) = some "%v%!(EXTRA string='x')" := by
  refine ⟨by decide, by decide, not_quoted_NULL, by decide, by decide, by decide⟩

/-- On a `[]interface{}` reply: the empty one gives `(0, "interface {}")`; a
non-empty one whose first element is not nil gives its length and the name of
the type of the first element, `string` when that is a byte slice. -/
theorem renderReply_ifaces :
    renderReply (.ifaces []) = some (0, "interface \x7b\x7d") ∧
    ∀ (x : GoValue) (xs : List GoValue) (t : String), x.typeName = some t →
      renderReply (.ifaces (x :: xs))
        = some ((xs.length : Int) + 1, if t = "[]uint8" then "string" else t) := by
  refine ⟨rfl, ?_⟩
  intro x xs t ht
  simp [renderReply, GoValue.eqString, GoValue.asSlice, ht]

end AhlibDb
